import Mathlib

/-!
Verification of the Weather.io override store, merge engine and client cache.

The definitions below are a shallow embedding of the program:

* the server side (`server.js`): `readOverrides`, `getLatestOverride`,
  `addOverride`, `removeOverride` and the `/override` HTTP handlers;
* the client side (the browser script): `fetchWeather` (the 15-minute
  cache plus the hourly-to-daily reduction), `weatherCodeToIcon`, and the
  override merge performed in `loadWeather`.

JavaScript numbers are modelled as exact rationals (`ℚ`), JS string
equality (`===`) as Lean `String` equality, the persisted overrides file
as a value describing its parse outcome, and the in-memory mutation of
the record array as a pure function from the old list to the new one.
Timestamps are `Int` milliseconds (`Date.now()`).
-/

namespace WeatherIO

/-- A partial weather snapshot: the `newValues` object carried by an
override record.  Each field is optional, mirroring a JS object that may
or may not have the property.  (The client's update form sends the first
five; the server stores whatever object it receives.) -/
structure NewValues where
  tempC : Option ℚ
  humidityPct : Option ℚ
  windKph : Option ℚ
  precipMm : Option ℚ
  conditionText : Option String
  conditionIcon : Option String
deriving DecidableEq

/-- The all-absent `newValues`, i.e. the JS empty object. -/
def NewValues.empty : NewValues :=
  ⟨none, none, none, none, none, none⟩

/-- One entry of the overrides log, as documented at the top of
`server.js`: lat/lon/date are the strings passed from the client,
`version` is a number that the server assigns as max+1 (so `Nat`),
`active` marks the current override, `updatedAt` is an ISO timestamp
string and `updatedBy` is always the string "anonymous". -/
structure OverrideRecord where
  lat : String
  lon : String
  date : String
  newValues : NewValues
  updatedAt : String
  updatedBy : String
  version : Nat
  active : Bool
deriving DecidableEq

/-- The key comparison used by all three store operations:
`o.lat === lat && o.lon === lon && o.date === date`. -/
def keyMatch (lat lon date : String) (o : OverrideRecord) : Bool :=
  o.lat == lat && o.lon == lon && o.date == date

/-- State of the persisted `overrides.json` file, abstracted by its parse
outcome: the file may be absent (`readFileSync` throws), present but not
valid JSON — which includes the empty file, since `JSON.parse("")` throws
— or present and parsing to a list of records. -/
inductive OverridesFile where
  | absent
  | unparsable
  | parsed (records : List OverrideRecord)

/-- `readOverrides` from `server.js`: read and parse the file, and on any
exception return the empty list. -/
def readOverrides : OverridesFile → List OverrideRecord
  | .absent => []
  | .unparsable => []
  | .parsed records => records

/-- The argmax-by-version step of `getLatestOverride`:
`candidates.reduce((a, b) => (a.version > b.version ? a : b))`. -/
def pickHigherVersion (a b : OverrideRecord) : OverrideRecord :=
  if a.version > b.version then a else b

/-- `getLatestOverride` from `server.js`, acting on an already-read log:
filter the active records matching the key and reduce to the one with the
highest version; `null` (here `none`) when there is no candidate. -/
def getLatestOverride (lat lon date : String) (all : List OverrideRecord) :
    Option OverrideRecord :=
  match all.filter (fun o => o.active && keyMatch lat lon date o) with
  | [] => none
  | c :: cs => some (cs.foldl pickHigherVersion c)

/-- The running maximum computed by the loop in `addOverride`:
`maxVersion = Math.max(maxVersion, o.version)` over the records matching
the key, starting from 0. -/
def maxVersionFor (lat lon date : String) (all : List OverrideRecord) : Nat :=
  all.foldl (fun acc o => if keyMatch lat lon date o then max acc o.version else acc) 0

/-- The deactivation performed by the same loop in `addOverride`:
`o.active = false` on every record matching the key, all other records
untouched. -/
def deactivateFor (lat lon date : String) (all : List OverrideRecord) :
    List OverrideRecord :=
  all.map (fun o => if keyMatch lat lon date o then { o with active := false } else o)

/-- `addOverride` from `server.js`, acting on an already-read log.  The JS
loop both accumulates `maxVersion` and flips `active`; the two effects are
independent, so they are embedded as `maxVersionFor` and `deactivateFor`.
`updatedAt` (the `new Date().toISOString()` value) is a parameter.
Returns the new record and the log that gets written back. -/
def addOverride (lat lon date : String) (values : NewValues) (updatedAt : String)
    (all : List OverrideRecord) : OverrideRecord × List OverrideRecord :=
  let newOverride : OverrideRecord :=
    { lat := lat, lon := lon, date := date, newValues := values,
      updatedAt := updatedAt, updatedBy := "anonymous",
      version := maxVersionFor lat lon date all + 1, active := true }
  (newOverride, deactivateFor lat lon date all ++ [newOverride])

/-- `removeOverride` from `server.js`, acting on an already-read log: flip
`active` on every active record matching the key; `removed` ends up
aliasing the last such record, which has been mutated, so the returned
record already carries `active = false`.  The file is written only when
`removed` is non-null, but when it is null no record was touched, so the
resulting log is returned uniformly. -/
def removeOverride (lat lon date : String) (all : List OverrideRecord) :
    Option OverrideRecord × List OverrideRecord :=
  let removed := all.foldl
    (fun acc o => if o.active && keyMatch lat lon date o
      then some { o with active := false } else acc) none
  let newList := all.map
    (fun o => if o.active && keyMatch lat lon date o
      then { o with active := false } else o)
  (removed, newList)

/-- `getLatestOverride` as called by the server: it reads the file itself. -/
def getLatestOverrideFile (lat lon date : String) (f : OverridesFile) :
    Option OverrideRecord :=
  getLatestOverride lat lon date (readOverrides f)

/-- `addOverride` as called by the server: it reads the file itself. -/
def addOverrideFile (lat lon date : String) (values : NewValues) (updatedAt : String)
    (f : OverridesFile) : OverrideRecord × List OverrideRecord :=
  addOverride lat lon date values updatedAt (readOverrides f)

/-- `removeOverride` as called by the server: it reads the file itself. -/
def removeOverrideFile (lat lon date : String) (f : OverridesFile) :
    Option OverrideRecord × List OverrideRecord :=
  removeOverride lat lon date (readOverrides f)

/-- The log produced by `n` consecutive `addOverride` calls for one key,
starting from the empty log; call `i` uses `vals i` and timestamp `tss i`. -/
def createN (lat lon date : String) (vals : Nat → NewValues) (tss : Nat → String) :
    Nat → List OverrideRecord
  | 0 => []
  | n + 1 => (addOverride lat lon date (vals n) (tss n)
      (createN lat lon date vals tss n)).2

/- Basic lemmas about the store operations. -/

theorem keyMatch_deactivate (lat lon date : String) (o : OverrideRecord) :
    keyMatch lat lon date { o with active := false } = keyMatch lat lon date o := by
  simp [keyMatch]

/-- After the deactivation pass of `addOverride`, no record matching the
key is still active. -/
theorem filter_deactivateFor (lat lon date : String) (all : List OverrideRecord) :
    (deactivateFor lat lon date all).filter
      (fun o => o.active && keyMatch lat lon date o) = [] := by
  induction all with
  | nil => rfl
  | cons o rest ih =>
    by_cases h : keyMatch lat lon date o
    · simp [deactivateFor, List.filter, h, keyMatch_deactivate] at ih ⊢
      exact ih
    · simp only [Bool.not_eq_true] at h
      simp [deactivateFor, List.filter, h, ih] at ih ⊢
      exact ih

/-- Versions and key fields are untouched by the deactivation pass, so the
running maximum is unchanged. -/
theorem maxVersionFor_deactivateFor (lat lon date : String) (all : List OverrideRecord) :
    maxVersionFor lat lon date (deactivateFor lat lon date all) =
      maxVersionFor lat lon date all := by
  unfold maxVersionFor deactivateFor
  generalize 0 = init
  induction all generalizing init with
  | nil => rfl
  | cons o rest ih =>
    simp only [List.map_cons, List.foldl_cons]
    by_cases h : keyMatch lat lon date o
    · simp only [h, if_true, keyMatch_deactivate]
      exact ih _
    · simp only [Bool.not_eq_true] at h
      simp only [h, if_neg, Bool.false_eq_true, not_false_eq_true]
      exact ih _

theorem maxVersionFor_append (lat lon date : String) (l₁ l₂ : List OverrideRecord) :
    maxVersionFor lat lon date (l₁ ++ l₂) =
      l₂.foldl (fun acc o => if keyMatch lat lon date o then max acc o.version else acc)
        (maxVersionFor lat lon date l₁) := by
  unfold maxVersionFor
  exact List.foldl_append _ _ _ _

theorem foldl_maxVersion_le_init (lat lon date : String) (all : List OverrideRecord) :
    ∀ init : Nat, init ≤ all.foldl
      (fun acc o => if keyMatch lat lon date o then max acc o.version else acc) init := by
  induction all with
  | nil => intro init; exact le_refl init
  | cons o rest ih =>
    intro init
    refine le_trans ?_ (ih _)
    by_cases h : keyMatch lat lon date o <;> simp [h]

/-- Every record matching the key contributes a lower bound to the running
maximum of `addOverride`. -/
theorem version_le_maxVersionFor (lat lon date : String) (all : List OverrideRecord) :
    ∀ o ∈ all, keyMatch lat lon date o = true →
      o.version ≤ maxVersionFor lat lon date all := by
  unfold maxVersionFor
  generalize 0 = init
  induction all generalizing init with
  | nil => intro o ho; exact absurd ho (List.not_mem_nil o)
  | cons a rest ih =>
    intro o ho hm
    rcases List.mem_cons.mp ho with rfl | ho
    · simp only [List.foldl_cons, hm, if_true]
      exact le_trans (le_max_right _ _) (foldl_maxVersion_le_init lat lon date rest _)
    · exact ih _ o ho hm

/-- The reduce step of `getLatestOverride` returns one of the candidates. -/
theorem foldl_pickHigherVersion_mem (c : OverrideRecord) (cs : List OverrideRecord) :
    cs.foldl pickHigherVersion c ∈ c :: cs := by
  induction cs generalizing c with
  | nil => exact List.mem_cons_self _ _
  | cons b bs ih =>
    simp only [List.foldl_cons]
    rcases List.mem_cons.mp (ih (pickHigherVersion c b)) with h1 | h1
    · rw [h1]
      unfold pickHigherVersion
      by_cases hv : c.version > b.version
      · simp only [hv, if_true]
        exact List.mem_cons_self _ _
      · simp only [hv, if_false]
        exact List.mem_cons_of_mem _ (List.mem_cons_self _ _)
    · exact List.mem_cons_of_mem _ (List.mem_cons_of_mem _ h1)

/-- The reduce step of `getLatestOverride` dominates every candidate's
version. -/
theorem le_foldl_pickHigherVersion (c : OverrideRecord) (cs : List OverrideRecord) :
    ∀ o ∈ c :: cs, o.version ≤ (cs.foldl pickHigherVersion c).version := by
  induction cs generalizing c with
  | nil =>
    intro o ho
    rcases List.mem_cons.mp ho with rfl | h
    · exact le_refl _
    · exact absurd h (List.not_mem_nil o)
  | cons b bs ih =>
    intro o ho
    have hc : c.version ≤ (pickHigherVersion c b).version := by
      unfold pickHigherVersion
      by_cases hv : c.version > b.version
      · simp [hv]
      · simp only [hv, if_false]
        omega
    have hb : b.version ≤ (pickHigherVersion c b).version := by
      unfold pickHigherVersion
      by_cases hv : c.version > b.version
      · simp only [hv, if_true]
        omega
      · simp [hv]
    have hhead := ih (pickHigherVersion c b) _ (List.mem_cons_self _ _)
    simp only [List.foldl_cons]
    rcases List.mem_cons.mp ho with rfl | ho
    · exact le_trans hc hhead
    rcases List.mem_cons.mp ho with rfl | ho
    · exact le_trans hb hhead
    · exact ih (pickHigherVersion c b) o (List.mem_cons_of_mem _ ho)

/-- C3: for every key and every log, including logs with several active
records for the key, getLatestOverride returns none exactly when no active
record for the key exists, and otherwise returns an active record for the
key that is in the log and whose version dominates every active record for
the key.  (The operation is a pure read: it is embedded as a function that
takes the log and returns only the candidate.) -/
theorem getLatestOverride_spec (lat lon date : String) (all : List OverrideRecord) :
    (getLatestOverride lat lon date all = none ↔
      ∀ o ∈ all, ¬(o.active = true ∧ keyMatch lat lon date o = true)) ∧
    (∀ r, getLatestOverride lat lon date all = some r →
      r ∈ all ∧ r.active = true ∧ keyMatch lat lon date r = true ∧
      ∀ o ∈ all, o.active = true → keyMatch lat lon date o = true →
        o.version ≤ r.version) := by
  constructor
  · unfold getLatestOverride
    cases hc : all.filter (fun o => o.active && keyMatch lat lon date o) with
    | nil =>
      simp only [true_iff]
      have := List.filter_eq_nil_iff.mp hc
      intro o ho hoa
      exact (by simpa [hoa.1, hoa.2] using this o ho)
    | cons c cs =>
      simp only [reduceCtorEq, false_iff, not_forall]
      have hcmem : c ∈ all.filter (fun o => o.active && keyMatch lat lon date o) := by
        rw [hc]; exact List.mem_cons_self _ _
      have := List.mem_filter.mp hcmem
      refine ⟨c, this.1, ?_⟩
      have h2 := this.2
      simp only [Bool.and_eq_true] at h2
      simp [h2.1, h2.2]
  · intro r hr
    unfold getLatestOverride at hr
    cases hc : all.filter (fun o => o.active && keyMatch lat lon date o) with
    | nil => rw [hc] at hr; exact absurd hr (by simp)
    | cons c cs =>
      rw [hc] at hr
      have hrv : r = cs.foldl pickHigherVersion c := by
        simpa using hr.symm
      have hrmem : r ∈ all.filter (fun o => o.active && keyMatch lat lon date o) := by
        rw [hc, hrv]; exact foldl_pickHigherVersion_mem c cs
      have hmf := List.mem_filter.mp hrmem
      have h2 := hmf.2
      simp only [Bool.and_eq_true] at h2
      refine ⟨hmf.1, h2.1, h2.2, ?_⟩
      intro o ho hoa hom
      have homem : o ∈ all.filter (fun o => o.active && keyMatch lat lon date o) :=
        List.mem_filter.mpr ⟨ho, by simp [hoa, hom]⟩
      rw [hc] at homem
      rw [hrv]
      exact le_foldl_pickHigherVersion c cs o homem

/-- The record built by `addOverride` matches its own key. -/
theorem keyMatch_addOverride (lat lon date : String) (v : NewValues) (ts : String)
    (log : List OverrideRecord) :
    keyMatch lat lon date (addOverride lat lon date v ts log).1 = true := by
  simp [addOverride, keyMatch]

/-- Running maximum over the log written by `addOverride`. -/
theorem maxVersionFor_addOverride (lat lon date : String) (v : NewValues) (ts : String)
    (log : List OverrideRecord) :
    maxVersionFor lat lon date (addOverride lat lon date v ts log).2 =
      maxVersionFor lat lon date log + 1 := by
  have hk : keyMatch lat lon date
      { lat := lat, lon := lon, date := date, newValues := v, updatedAt := ts,
        updatedBy := "anonymous", version := maxVersionFor lat lon date log + 1,
        active := true } = true := by
    simp [keyMatch]
  show maxVersionFor lat lon date (deactivateFor lat lon date log ++ [_]) = _
  rw [maxVersionFor_append, maxVersionFor_deactivateFor]
  simp only [List.foldl_cons, List.foldl_nil, hk, if_true]
  omega

/-- After `n` creations for a key starting from the empty log, the running
maximum version for that key is `n`. -/
theorem maxVersionFor_createN (lat lon date : String) (vals : Nat → NewValues)
    (tss : Nat → String) : ∀ n : Nat,
    maxVersionFor lat lon date (createN lat lon date vals tss n) = n := by
  intro n
  induction n with
  | zero => rfl
  | succ n ih =>
    show maxVersionFor lat lon date (addOverride _ _ _ _ _ _).2 = _
    rw [maxVersionFor_addOverride, ih]

/-- The active records for the key after `addOverride` are exactly the one
new record. -/
theorem filter_addOverride (lat lon date : String) (v : NewValues) (ts : String)
    (log : List OverrideRecord) :
    (addOverride lat lon date v ts log).2.filter
        (fun o => o.active && keyMatch lat lon date o) =
      [(addOverride lat lon date v ts log).1] := by
  show (deactivateFor lat lon date log ++ [(addOverride lat lon date v ts log).1]).filter _ = _
  rw [List.filter_append, filter_deactivateFor]
  have h1 : (addOverride lat lon date v ts log).1.active = true := rfl
  simp [h1, keyMatch_addOverride _ _ _ v ts log]

/-- C1: addOverride flips active to false on every existing record for the
key (whether or not it was active), appends exactly one new record with
active true carrying the given newValues, and returns that record; and
starting from the empty log, after N+1 addOverride calls for a key exactly
one record for that key is active and its version equals N+1. -/
theorem create_supersedes_and_single_active (lat lon date : String) (v : NewValues)
    (ts : String) (log : List OverrideRecord) (vals : Nat → NewValues)
    (tss : Nat → String) (N : Nat) :
    (addOverride lat lon date v ts log).1.active = true ∧
    (addOverride lat lon date v ts log).1.newValues = v ∧
    (addOverride lat lon date v ts log).2.length = log.length + 1 ∧
    (∀ i, i < log.length → (addOverride lat lon date v ts log).2[i]? =
        (log[i]?).map
          (fun o => if keyMatch lat lon date o then { o with active := false } else o)) ∧
    (addOverride lat lon date v ts log).2[log.length]? =
      some (addOverride lat lon date v ts log).1 ∧
    (∀ o ∈ (addOverride lat lon date v ts log).2,
        o.active = true → keyMatch lat lon date o = true →
        o = (addOverride lat lon date v ts log).1) ∧
    ((createN lat lon date vals tss (N + 1)).filter
        (fun o => o.active && keyMatch lat lon date o)).length = 1 ∧
    (∀ o ∈ createN lat lon date vals tss (N + 1),
        o.active = true → keyMatch lat lon date o = true → o.version = N + 1) := by
  have hlen : (deactivateFor lat lon date log).length = log.length := by
    simp [deactivateFor]
  refine ⟨rfl, rfl, ?_, ?_, ?_, ?_, ?_, ?_⟩
  · show (deactivateFor lat lon date log ++ [_]).length = _
    simp [hlen]
  · intro i hi
    show (deactivateFor lat lon date log ++ [_])[i]? = _
    rw [List.getElem?_append_left (by rw [hlen]; exact hi)]
    simp [deactivateFor]
  · show (deactivateFor lat lon date log ++ [_])[log.length]? = _
    rw [List.getElem?_append_right (by rw [hlen])]
    simp only [hlen, Nat.sub_self, List.getElem?_cons_zero, Option.some.injEq]
    rfl
  · intro o ho hact hmatch
    have : o ∈ (addOverride lat lon date v ts log).2.filter
        (fun o => o.active && keyMatch lat lon date o) :=
      List.mem_filter.mpr ⟨ho, by simp [hact, hmatch]⟩
    rw [filter_addOverride] at this
    simpa using this
  · show ((addOverride lat lon date (vals N) (tss N)
        (createN lat lon date vals tss N)).2.filter _).length = 1
    rw [filter_addOverride]
    rfl
  · intro o ho hact hmatch
    have hmem : o ∈ (addOverride lat lon date (vals N) (tss N)
        (createN lat lon date vals tss N)).2.filter
          (fun o => o.active && keyMatch lat lon date o) :=
      List.mem_filter.mpr ⟨ho, by simp [hact, hmatch]⟩
    rw [filter_addOverride] at hmem
    have : o = (addOverride lat lon date (vals N) (tss N)
        (createN lat lon date vals tss N)).1 := by simpa using hmem
    rw [this]
    show maxVersionFor lat lon date (createN lat lon date vals tss N) + 1 = N + 1
    rw [maxVersionFor_createN]

/-- C2: the version assigned by addOverride is the running maximum over all
records for the key (active or not, starting from 0) plus one, hence strictly
above every existing version for the key; and Create then Delete then Create
on one key starting from the empty log yields versions 1 and then 2. -/
theorem version_assignment (lat lon date : String) (v v1 v2 : NewValues)
    (ts t1 t2 : String) (log : List OverrideRecord) :
    (addOverride lat lon date v ts log).1.version = maxVersionFor lat lon date log + 1 ∧
    (∀ o ∈ log, keyMatch lat lon date o = true →
        o.version < (addOverride lat lon date v ts log).1.version) ∧
    (addOverride lat lon date v1 t1 []).1.version = 1 ∧
    (addOverride lat lon date v2 t2
        (removeOverride lat lon date (addOverride lat lon date v1 t1 []).2).2).1.version
      = 2 := by
  refine ⟨rfl, ?_, rfl, ?_⟩
  · intro o ho hm
    have := version_le_maxVersionFor lat lon date log o ho hm
    show o.version < maxVersionFor lat lon date log + 1
    omega
  · show maxVersionFor lat lon date
        (removeOverride lat lon date (addOverride lat lon date v1 t1 []).2).2 + 1 = 2
    simp [addOverride, removeOverride, deactivateFor, maxVersionFor, keyMatch]

/-- The accumulator of the removeOverride loop: a returned record originates
from an active record of the log matching the key, deactivated. -/
theorem removeFold_some (lat lon date : String) (log : List OverrideRecord) :
    ∀ acc r, log.foldl
        (fun acc o => if o.active && keyMatch lat lon date o
          then some { o with active := false } else acc) acc = some r →
      (∃ o ∈ log, o.active = true ∧ keyMatch lat lon date o = true ∧
        r = { o with active := false }) ∨ acc = some r := by
  induction log with
  | nil => intro acc r h; exact Or.inr h
  | cons a rest ih =>
    intro acc r h
    simp only [List.foldl_cons] at h
    by_cases ha : (a.active && keyMatch lat lon date a) = true
    · rw [if_pos ha] at h
      rcases ih _ r h with ⟨o, ho, h1, h2, h3⟩ | heq
      · exact Or.inl ⟨o, List.mem_cons_of_mem _ ho, h1, h2, h3⟩
      · have hab := Bool.and_eq_true_iff.mp ha
        injection heq with heq
        exact Or.inl ⟨a, List.mem_cons_self _ _, hab.1, hab.2, heq.symm⟩
    · rw [if_neg ha] at h
      rcases ih _ r h with ⟨o, ho, hrest⟩ | heq
      · exact Or.inl ⟨o, List.mem_cons_of_mem _ ho, hrest⟩
      · exact Or.inr heq

/-- If no record of the log is both active and matching, the removeOverride
loop never writes its accumulator. -/
theorem removeFold_const (lat lon date : String) (log : List OverrideRecord)
    (h : ∀ o ∈ log, (o.active && keyMatch lat lon date o) = false) :
    ∀ acc : Option OverrideRecord, log.foldl
        (fun acc o => if o.active && keyMatch lat lon date o
          then some { o with active := false } else acc) acc = acc := by
  induction log with
  | nil => intro acc; rfl
  | cons a rest ih =>
    intro acc
    simp only [List.foldl_cons]
    rw [if_neg (by simp [h a (List.mem_cons_self _ _)])]
    exact ih (fun o ho => h o (List.mem_cons_of_mem _ ho)) acc

/-- If no record of the log is both active and matching, the removeOverride
pass rewrites nothing. -/
theorem removeMap_id (lat lon date : String) (log : List OverrideRecord)
    (h : ∀ o ∈ log, (o.active && keyMatch lat lon date o) = false) :
    log.map (fun o => if o.active && keyMatch lat lon date o
      then { o with active := false } else o) = log := by
  induction log with
  | nil => rfl
  | cons a rest ih =>
    simp only [List.map_cons]
    rw [if_neg (by simp [h a (List.mem_cons_self _ _)])]
    rw [ih (fun o ho => h o (List.mem_cons_of_mem _ ho))]

/-- The accumulator of the removeOverride loop is non-null as soon as some
record of the log is both active and matching (or it already was). -/
theorem removeFold_isSome (lat lon date : String) (log : List OverrideRecord) :
    ∀ acc : Option OverrideRecord,
      (∃ o ∈ log, (o.active && keyMatch lat lon date o) = true) ∨ acc.isSome = true →
      (log.foldl (fun acc o => if o.active && keyMatch lat lon date o
        then some { o with active := false } else acc) acc).isSome = true := by
  induction log with
  | nil =>
    intro acc h
    rcases h with ⟨o, ho, _⟩ | h
    · exact absurd ho (List.not_mem_nil o)
    · exact h
  | cons a rest ih =>
    intro acc h
    simp only [List.foldl_cons]
    by_cases ha : (a.active && keyMatch lat lon date a) = true
    · rw [if_pos ha]
      exact ih _ (Or.inr rfl)
    · rw [if_neg ha]
      apply ih
      rcases h with ⟨o, ho, hcond⟩ | hacc
      · rcases List.mem_cons.mp ho with rfl | ho2
        · exact absurd hcond ha
        · exact Or.inl ⟨o, ho2, hcond⟩
      · exact Or.inr hacc

/-- C4: removeOverride appends nothing (the log keeps its length) and rewrites
each record in place, flipping active exactly on the active records for the
key and leaving every other field, including version, unchanged; afterwards no
active record for the key remains; a returned record is a deactivated copy of
an active record for the key from the log; when the key has no active
record the call returns none and the log is unchanged; and whenever an active
record for the key exists the call does return a record. -/
theorem remove_deactivates (lat lon date : String) (log : List OverrideRecord) :
    (removeOverride lat lon date log).2.length = log.length ∧
    (∀ i : Nat, (removeOverride lat lon date log).2[i]? = (log[i]?).map
        (fun o => if o.active && keyMatch lat lon date o
          then { o with active := false } else o)) ∧
    (∀ o ∈ (removeOverride lat lon date log).2, o.active = true →
        keyMatch lat lon date o = false) ∧
    (∀ r, (removeOverride lat lon date log).1 = some r →
        ∃ o ∈ log, o.active = true ∧ keyMatch lat lon date o = true ∧
          r = { o with active := false }) ∧
    ((∀ o ∈ log, o.active = true → keyMatch lat lon date o = false) →
        (removeOverride lat lon date log).1 = none ∧
        (removeOverride lat lon date log).2 = log) ∧
    (∀ o ∈ log, o.active = true → keyMatch lat lon date o = true →
        (removeOverride lat lon date log).1.isSome = true) := by
  refine ⟨?_, ?_, ?_, ?_, ?_, ?_⟩
  · show (log.map _).length = log.length
    exact List.length_map _ _
  · intro i
    show (log.map _)[i]? = _
    exact List.getElem?_map _ _ _
  · intro o' ho' hact
    rcases List.mem_map.mp ho' with ⟨o, ho, rfl⟩
    by_cases hc : (o.active && keyMatch lat lon date o) = true
    · rw [if_pos hc] at hact
      simp at hact
    · rw [if_neg hc]
      rw [if_neg hc] at hact
      cases hkm : keyMatch lat lon date o with
      | false => rfl
      | true => exact absurd (by simp [hact, hkm]) hc
  · intro r hr
    have : log.foldl
        (fun acc o => if o.active && keyMatch lat lon date o
          then some { o with active := false } else acc) none = some r := hr
    rcases removeFold_some lat lon date log none r this with h | h
    · exact h
    · exact absurd h (by simp)
  · intro h
    have h' : ∀ o ∈ log, (o.active && keyMatch lat lon date o) = false := by
      intro o ho
      cases hact : o.active with
      | false => simp
      | true => simp [h o ho hact]
    constructor
    · show log.foldl
        (fun acc o => if o.active && keyMatch lat lon date o
          then some { o with active := false } else acc)
          (none : Option OverrideRecord) = none
      exact removeFold_const lat lon date log h' none
    · show log.map
        (fun o => if o.active && keyMatch lat lon date o
          then { o with active := false } else o) = log
      exact removeMap_id lat lon date log h'
  · intro o ho hact hmatch
    show (log.foldl
        (fun acc o => if o.active && keyMatch lat lon date o
          then some { o with active := false } else acc)
        (none : Option OverrideRecord)).isSome = true
    exact removeFold_isSome lat lon date log none
      (Or.inl ⟨o, ho, by simp [hact, hmatch]⟩)

/-- C9: when the backing file is absent, or present but unparsable (which
includes the empty file), reading yields the empty log rather than an
error, and every store operation on such a file behaves exactly as on a
store whose file parses to the empty log. -/
theorem resilient_read (lat lon date : String) (v : NewValues) (ts : String)
    (f : OverridesFile) (h : f = .absent ∨ f = .unparsable) :
    readOverrides f = [] ∧
    getLatestOverrideFile lat lon date f =
      getLatestOverrideFile lat lon date (.parsed []) ∧
    addOverrideFile lat lon date v ts f =
      addOverrideFile lat lon date v ts (.parsed []) ∧
    removeOverrideFile lat lon date f =
      removeOverrideFile lat lon date (.parsed []) := by
  rcases h with rfl | rfl <;> exact ⟨rfl, rfl, rfl, rfl⟩

/-- A fully-populated weather snapshot as built by the client from the
hourly data (the `weather` object in `fetchWeather`). -/
structure WeatherSnapshot where
  tempC : ℚ
  humidityPct : ℚ
  windKph : ℚ
  precipMm : ℚ
  conditionText : String
  conditionIcon : String
  source : String
deriving DecidableEq

/-- The object spread performed in `loadWeather`: every field present in
`newValues` overwrites the baseline field, every absent field falls
through to the baseline; the spread does not touch `source` (the label
shown is the separate provenance string). -/
def mergeValues (w : WeatherSnapshot) (nv : NewValues) : WeatherSnapshot :=
  { tempC := nv.tempC.getD w.tempC,
    humidityPct := nv.humidityPct.getD w.humidityPct,
    windKph := nv.windKph.getD w.windKph,
    precipMm := nv.precipMm.getD w.precipMm,
    conditionText := nv.conditionText.getD w.conditionText,
    conditionIcon := nv.conditionIcon.getD w.conditionIcon,
    source := w.source }

/-- The merge-and-provenance step of `loadWeather`: with an override, the
combined snapshot and the label built from the record's version; without,
the baseline and the label API. -/
def displayWeather (weather : WeatherSnapshot) (override : Option OverrideRecord) :
    WeatherSnapshot × String :=
  match override with
  | none => (weather, "API")
  | some r => (mergeValues weather r.newValues,
      "Override (v" ++ toString r.version ++ ")")

/-- C5: the merge result is the baseline with exactly the fields present in
the record's newValues overwritten, under the provenance label built from
the record's version; with no active override the result is the baseline
under the label API; an override with empty newValues reproduces the
baseline but still reports override provenance. -/
theorem merge_spec (w : WeatherSnapshot) (r : OverrideRecord) :
    displayWeather w none = (w, "API") ∧
    (displayWeather w (some r)).2 = "Override (v" ++ toString r.version ++ ")" ∧
    (∀ q, r.newValues.tempC = some q → (displayWeather w (some r)).1.tempC = q) ∧
    (r.newValues.tempC = none → (displayWeather w (some r)).1.tempC = w.tempC) ∧
    (∀ q, r.newValues.humidityPct = some q →
      (displayWeather w (some r)).1.humidityPct = q) ∧
    (r.newValues.humidityPct = none →
      (displayWeather w (some r)).1.humidityPct = w.humidityPct) ∧
    (∀ q, r.newValues.windKph = some q → (displayWeather w (some r)).1.windKph = q) ∧
    (r.newValues.windKph = none → (displayWeather w (some r)).1.windKph = w.windKph) ∧
    (∀ q, r.newValues.precipMm = some q → (displayWeather w (some r)).1.precipMm = q) ∧
    (r.newValues.precipMm = none → (displayWeather w (some r)).1.precipMm = w.precipMm) ∧
    (∀ s, r.newValues.conditionText = some s →
      (displayWeather w (some r)).1.conditionText = s) ∧
    (r.newValues.conditionText = none →
      (displayWeather w (some r)).1.conditionText = w.conditionText) ∧
    (∀ s, r.newValues.conditionIcon = some s →
      (displayWeather w (some r)).1.conditionIcon = s) ∧
    (r.newValues.conditionIcon = none →
      (displayWeather w (some r)).1.conditionIcon = w.conditionIcon) ∧
    (displayWeather w (some r)).1.source = w.source ∧
    (r.newValues = NewValues.empty → (displayWeather w (some r)).1 = w) := by
  refine ⟨rfl, rfl, ?_, ?_, ?_, ?_, ?_, ?_, ?_, ?_, ?_, ?_, ?_, ?_, rfl, ?_⟩
  all_goals
    first
      | (intro q h; simp [displayWeather, mergeValues, h])
      | (intro h; simp [displayWeather, mergeValues, h, NewValues.empty])

/-- `getLatestOverride` right after `addOverride` for the same key finds
exactly the new record. -/
theorem getLatestOverride_addOverride (lat lon date : String) (v : NewValues)
    (ts : String) (log : List OverrideRecord) :
    getLatestOverride lat lon date (addOverride lat lon date v ts log).2 =
      some (addOverride lat lon date v ts log).1 := by
  simp only [getLatestOverride, filter_addOverride, List.foldl_nil]

/-- `removeOverride` right after `addOverride` for the same key returns the
new record, deactivated. -/
theorem removeOverride_addOverride (lat lon date : String) (v : NewValues)
    (ts : String) (log : List OverrideRecord) :
    (removeOverride lat lon date (addOverride lat lon date v ts log).2).1 =
      some { (addOverride lat lon date v ts log).1 with active := false } := by
  show ((deactivateFor lat lon date log ++ [(addOverride lat lon date v ts log).1]).foldl
      (fun acc o => if o.active && keyMatch lat lon date o
        then some { o with active := false } else acc)
      (none : Option OverrideRecord)) = _
  rw [List.foldl_append]
  simp only [List.foldl_cons, List.foldl_nil]
  rw [if_pos]
  simp only [Bool.and_eq_true]
  exact ⟨rfl, keyMatch_addOverride lat lon date v ts log⟩

/-- A primitive JSON value as it can appear in a request-body field: a
string, a number, or null (which also stands for an absent field). -/
inductive JVal where
  | jstr (s : String)
  | jnum (q : ℚ)
  | jnull
deriving DecidableEq

/-- JS truthiness of a body field, as tested by the guard
`!lat || !lon || !date` in the POST and DELETE handlers: the empty string,
zero and null are falsy. -/
def jsTruthy : JVal → Bool
  | .jstr s => s != ""
  | .jnum q => q != 0
  | .jnull => false

/-- The `String()` coercion the handlers apply to the body fields before
calling the store; the host's number-to-string conversion is the
parameter `fmt`. -/
def jsToString (fmt : ℚ → String) : JVal → String
  | .jstr s => s
  | .jnum q => fmt q
  | .jnull => "null"

/-- The POST /override handler after JSON parsing succeeded: reject with
400 when any of lat, lon, date is falsy or values is absent, otherwise
coerce the key fields with String() and call addOverride. -/
def handlePost (fmt : ℚ → String) (lat lon date : JVal) (values : Option NewValues)
    (updatedAt : String) (log : List OverrideRecord) :
    Except Nat (OverrideRecord × List OverrideRecord) :=
  match values with
  | none => .error 400
  | some v =>
    if jsTruthy lat && jsTruthy lon && jsTruthy date then
      .ok (addOverride (jsToString fmt lat) (jsToString fmt lon)
        (jsToString fmt date) v updatedAt log)
    else .error 400

/-- The GET /override handler: the query parameters arrive as strings (or
are absent); missing or empty parameters give 400, otherwise the latest
active record for the exact string key (or none, serialized as the empty
object). -/
def handleGet (lat lon date : Option String) (log : List OverrideRecord) :
    Except Nat (Option OverrideRecord) :=
  match lat, lon, date with
  | some la, some lo, some da =>
    if la != "" && lo != "" && da != "" then
      .ok (getLatestOverride la lo da log)
    else .error 400
  | _, _, _ => .error 400

/-- The DELETE /override handler after JSON parsing succeeded: reject with
400 when any key field is falsy, otherwise coerce with String(), call
removeOverride, and report whether a record was removed. -/
def handleDelete (fmt : ℚ → String) (lat lon date : JVal)
    (log : List OverrideRecord) : Except Nat (Bool × List OverrideRecord) :=
  if jsTruthy lat && jsTruthy lon && jsTruthy date then
    let res := removeOverride (jsToString fmt lat) (jsToString fmt lon)
      (jsToString fmt date) log
    .ok (res.1.isSome, res.2)
  else .error 400

/-- C10: the POST handler coerces the body's lat, lon and date with
String() before calling addOverride, so the persisted record's key fields
are exactly those strings (in particular a numeric latitude is stored as a
string); a later GET whose query parameters are those very strings finds
the record by exact string comparison, and a later DELETE with the same
body deactivates it. -/
theorem http_key_coercion (fmt : ℚ → String) (lat lon date : JVal)
    (v : NewValues) (ts : String) (log : List OverrideRecord)
    (hlat : jsTruthy lat = true) (hlon : jsTruthy lon = true)
    (hdate : jsTruthy date = true) (hfmt : ∀ q : ℚ, fmt q ≠ "") :
    ∃ r log2, handlePost fmt lat lon date (some v) ts log = .ok (r, log2) ∧
      r.lat = jsToString fmt lat ∧ r.lon = jsToString fmt lon ∧
      r.date = jsToString fmt date ∧
      getLatestOverride r.lat r.lon r.date log2 = some r ∧
      handleGet (some r.lat) (some r.lon) (some r.date) log2 = .ok (some r) ∧
      ∃ log3, handleDelete fmt lat lon date log2 = .ok (true, log3) := by
  have hne : ∀ j : JVal, jsTruthy j = true → jsToString fmt j ≠ "" := by
    intro j hj
    cases j with
    | jstr s => simpa [jsTruthy, jsToString] using hj
    | jnum q => exact hfmt q
    | jnull => simp [jsTruthy] at hj
  set la := jsToString fmt lat with hla
  set lo := jsToString fmt lon with hlo
  set da := jsToString fmt date with hda
  refine ⟨(addOverride la lo da v ts log).1, (addOverride la lo da v ts log).2,
    ?_, rfl, rfl, rfl, ?_, ?_, ?_⟩
  · simp [handlePost, hlat, hlon, hdate]
  · exact getLatestOverride_addOverride la lo da v ts log
  · have h1 : (addOverride la lo da v ts log).1.lat = la := rfl
    have h2 : (addOverride la lo da v ts log).1.lon = lo := rfl
    have h3 : (addOverride la lo da v ts log).1.date = da := rfl
    rw [h1, h2, h3]
    simp only [handleGet]
    rw [if_pos (by simp [hne lat hlat, hne lon hlon, hne date hdate])]
    rw [getLatestOverride_addOverride la lo da v ts log]
  · refine ⟨(removeOverride la lo da (addOverride la lo da v ts log).2).2, ?_⟩
    simp only [handleDelete, hlat, hlon, hdate, Bool.and_self, if_true]
    rw [show (removeOverride la lo da (addOverride la lo da v ts log).2).1.isSome = true
      by rw [removeOverride_addOverride]; rfl]

/-- One hourly sample as consumed from the upstream JSON: the four numeric
series, the condition description (`weatherDesc[0].value`) and the integer
weather code (`parseInt(weatherCode)`). -/
structure HourEntry where
  tempC : ℚ
  humidity : ℚ
  windspeedKmph : ℚ
  precipMM : ℚ
  weatherDesc : String
  weatherCode : Int
deriving DecidableEq

/-- One per-day block of the upstream response: its date string and its
hourly series. -/
structure WeatherDay where
  date : String
  hourly : List HourEntry
deriving DecidableEq

/-- Outcome of the upstream HTTP fetch: the promise rejects (network
error), the response is non-success (`!resp.ok`), or a JSON body whose
`weather` array is the given list of days. -/
inductive Upstream where
  | failNetwork
  | failStatus
  | ok (days : List WeatherDay)
deriving DecidableEq

/-- The failure modes `fetchWeather` can surface: a rejected fetch, the
thrown `Failed to fetch weather data` on a non-success response, the crash
on an empty `weather` array, and the thrown `No hourly data available`. -/
inductive FetchError where
  | network
  | badStatus
  | noData
  | noHourly
deriving DecidableEq

/-- The codes mapped to the partly-cloudy icon. -/
def partlyCloudyCodes : List Int := [116, 119, 122]

/-- The codes mapped to the fog icon. -/
def fogCodes : List Int := [143, 248, 260]

/-- The codes mapped to the rain icon. -/
def rainCodes : List Int :=
  [176, 200, 263, 266, 281, 284, 293, 296, 299, 302, 305, 308, 311, 314,
   353, 356, 359, 386, 389]

/-- The codes mapped to the snow icon. -/
def snowCodes : List Int :=
  [179, 227, 230, 317, 320, 323, 326, 329, 332, 335, 338, 350, 368, 371,
   374, 377, 392, 395]

/-- `weatherCodeToIcon` from the client script: a fixed lookup from the
integer weather code to one of six emoji, with the cloudy icon as the
default for every unmapped code. -/
def weatherCodeToIcon (code : Int) : String :=
  if code == 113 then "☀️"
  else if partlyCloudyCodes.contains code then "⛅"
  else if fogCodes.contains code then "🌫️"
  else if rainCodes.contains code then "🌧️"
  else if snowCodes.contains code then "❄️"
  else "🌥️"

/-- Rounding to one decimal digit as performed by `x.toFixed(1)` followed
by `parseFloat`: the nearest multiple of 1/10, ties away from the smaller
value (the ECMAScript `toFixed` picks the larger candidate). -/
def round1 (q : ℚ) : ℚ := (⌊q * 10 + 1 / 2⌋ : ℚ) / 10

/-- Rounding to an integer as performed by `Math.round`: floor of x + 1/2. -/
def round0 (q : ℚ) : ℚ := (⌊q + 1 / 2⌋ : ℚ)

/-- The hour used when the midpoint index is out of range; unreachable,
since the reduction is only invoked on a non-empty series. -/
def defaultHour : HourEntry :=
  { tempC := 0, humidity := 0, windspeedKmph := 0, precipMM := 0,
    weatherDesc := "", weatherCode := 0 }

/-- The reduction of a day's hourly samples to one snapshot, from
`fetchWeather`: sums of the four series, then the mean of temperature,
humidity and wind rounded via `toFixed(1)` / `Math.round`, the precip sum
rounded via `toFixed(1)`, and the condition text and icon taken from the
hour at index `Math.floor(count / 2)`. -/
def reduceHourly (hourly : List HourEntry) : WeatherSnapshot :=
  let count : ℚ := (hourly.length : ℚ)
  let sumTemp := (hourly.map HourEntry.tempC).sum
  let sumHumidity := (hourly.map HourEntry.humidity).sum
  let sumWind := (hourly.map HourEntry.windspeedKmph).sum
  let sumPrecip := (hourly.map HourEntry.precipMM).sum
  let condition := hourly.getD (hourly.length / 2) defaultHour
  { tempC := round1 (sumTemp / count),
    humidityPct := round0 (sumHumidity / count),
    windKph := round1 (sumWind / count),
    precipMm := round1 sumPrecip,
    conditionText := condition.weatherDesc.trim,
    conditionIcon := weatherCodeToIcon condition.weatherCode,
    source := "api" }

/-- The day selection in `fetchWeather`:
`weatherArr.find(item => item.date === dateString)` with fallback to
`weatherArr[0]`; none when the array is empty. -/
def selectDay (dateString : String) (days : List WeatherDay) : Option WeatherDay :=
  (days.find? (fun d => d.date == dateString)).orElse (fun _ => days.head?)

/-- A cached snapshot with the time it was fetched (`Date.now()` ms). -/
structure CacheEntry where
  data : WeatherSnapshot
  timestamp : Int
deriving DecidableEq

/-- The `weatherCache` object from localStorage: keys are the
`lat,lon,date` template strings. -/
abbrev Cache := List (String × CacheEntry)

/-- Property read `cache[cacheKey]`. -/
def cacheLookup (c : Cache) (k : String) : Option CacheEntry :=
  match c with
  | [] => none
  | p :: rest => if p.1 == k then some p.2 else cacheLookup rest k

/-- Property write `cache[cacheKey] = entry`: replace in place if the key
exists, append otherwise (JS object key order). -/
def cacheSet (c : Cache) (k : String) (e : CacheEntry) : Cache :=
  match c with
  | [] => [(k, e)]
  | p :: rest => if p.1 == k then (k, e) :: rest else p :: cacheSet rest k e

/-- The cache freshness window: 15 * 60 * 1000 ms. -/
def FRESH_MS : Int := 15 * 60 * 1000

/-- What one `fetchWeather` call produces: the returned snapshot or the
thrown error, the resulting `weatherCache` content, and whether an
upstream request was issued. -/
structure FetchOutcome where
  result : Except FetchError WeatherSnapshot
  cache : Cache
  fetched : Bool

/-- The upstream branch of `fetchWeather` (after the cache check missed):
propagate fetch/status failures, crash (throw) on an empty `weather`
array, throw on an empty hourly series, and otherwise reduce the selected
day and store the snapshot under the key with timestamp `now`. -/
def fetchUpstream (dateString cacheKey : String) (now : Int) (cache : Cache)
    (upstream : Upstream) : FetchOutcome :=
  match upstream with
  | .failNetwork => ⟨.error .network, cache, true⟩
  | .failStatus => ⟨.error .badStatus, cache, true⟩
  | .ok days =>
    match selectDay dateString days with
    | none => ⟨.error .noData, cache, true⟩
    | some day =>
      if day.hourly.isEmpty then ⟨.error .noHourly, cache, true⟩
      else
        let weather := reduceHourly day.hourly
        ⟨.ok weather, cacheSet cache cacheKey ⟨weather, now⟩, true⟩

/-- `fetchWeather` from the client script: serve the cached snapshot when
an entry for the key exists and is younger than 15 minutes, otherwise go
upstream. -/
def fetchWeather (dateString cacheKey : String) (now : Int) (cache : Cache)
    (upstream : Upstream) : FetchOutcome :=
  match cacheLookup cache cacheKey with
  | some entry =>
    if now - entry.timestamp < FRESH_MS then ⟨.ok entry.data, cache, false⟩
    else fetchUpstream dateString cacheKey now cache upstream
  | none => fetchUpstream dateString cacheKey now cache upstream

/-- Whether the upstream outcome makes `fetchWeather` fail for this date:
a rejected fetch, a non-success response, an empty `weather` array, or an
empty hourly series on the selected day. -/
def upstreamFails (dateString : String) : Upstream → Bool
  | .failNetwork => true
  | .failStatus => true
  | .ok days =>
    match selectDay dateString days with
    | none => true
    | some day => day.hourly.isEmpty

/-- Writing a cache key makes it readable: property write then read. -/
theorem cacheLookup_cacheSet_self (c : Cache) (k : String) (e : CacheEntry) :
    cacheLookup (cacheSet c k e) k = some e := by
  induction c with
  | nil => simp [cacheSet, cacheLookup]
  | cons p rest ih =>
    by_cases h : p.1 == k
    · simp [cacheSet, h, cacheLookup]
    · simp [cacheSet, h, cacheLookup, ih]

/-- Every upstream branch issues the request: once the cache check misses,
`fetched` is true whatever the outcome. -/
theorem fetchUpstream_fetched (dateString cacheKey : String) (now : Int)
    (cache : Cache) (upstream : Upstream) :
    (fetchUpstream dateString cacheKey now cache upstream).fetched = true := by
  cases upstream with
  | failNetwork => rfl
  | failStatus => rfl
  | ok days =>
    cases h : selectDay dateString days with
    | none => simp [fetchUpstream, h]
    | some day =>
      by_cases hh : day.hourly.isEmpty <;> simp [fetchUpstream, h, hh]

/-- C6: a Get finding an entry younger than 15 minutes returns its
snapshot without fetching and leaves the cache as is; a Get finding no
entry or a stale one goes upstream and, on success, stores the reduced
snapshot under the key with fetchedAt = now; consequently, from a cache
with no entry for the key, a first Get fetches, a second Get within the
window returns the same snapshot without fetching (whatever the upstream
would do), and a second Get at or past the window fetches again. -/
theorem cache_freshness (dateString cacheKey : String) (now t1 t2 : Int)
    (cache : Cache) (up up2 : Upstream) (days : List WeatherDay) :
    (∀ entry, cacheLookup cache cacheKey = some entry →
      now - entry.timestamp < FRESH_MS →
      fetchWeather dateString cacheKey now cache up = ⟨.ok entry.data, cache, false⟩) ∧
    ((cacheLookup cache cacheKey = none ∨
      (∃ entry, cacheLookup cache cacheKey = some entry ∧
        FRESH_MS ≤ now - entry.timestamp)) →
      ∀ day, selectDay dateString days = some day → day.hourly ≠ [] →
        fetchWeather dateString cacheKey now cache (.ok days) =
          ⟨.ok (reduceHourly day.hourly),
            cacheSet cache cacheKey ⟨reduceHourly day.hourly, now⟩, true⟩ ∧
        cacheLookup (fetchWeather dateString cacheKey now cache (.ok days)).cache
          cacheKey = some ⟨reduceHourly day.hourly, now⟩) ∧
    (cacheLookup cache cacheKey = none →
      ∀ day, selectDay dateString days = some day → day.hourly ≠ [] →
        (fetchWeather dateString cacheKey t1 cache (.ok days)).fetched = true ∧
        (t2 - t1 < FRESH_MS →
          fetchWeather dateString cacheKey t2
              (fetchWeather dateString cacheKey t1 cache (.ok days)).cache up2 =
            ⟨.ok (reduceHourly day.hourly),
              (fetchWeather dateString cacheKey t1 cache (.ok days)).cache, false⟩) ∧
        (FRESH_MS ≤ t2 - t1 →
          (fetchWeather dateString cacheKey t2
            (fetchWeather dateString cacheKey t1 cache (.ok days)).cache up2).fetched
            = true)) := by
  have hgo : ∀ (m : Int) (day : WeatherDay), selectDay dateString days = some day →
      day.hourly ≠ [] →
      fetchUpstream dateString cacheKey m cache (.ok days) =
        ⟨.ok (reduceHourly day.hourly),
          cacheSet cache cacheKey ⟨reduceHourly day.hourly, m⟩, true⟩ := by
    intro m day hday hne
    have hie : day.hourly.isEmpty = false := List.isEmpty_eq_false.mpr hne
    simp [fetchUpstream, hday, hie]
  have hmissStale : ∀ (m : Int), (cacheLookup cache cacheKey = none ∨
      (∃ entry, cacheLookup cache cacheKey = some entry ∧
        FRESH_MS ≤ m - entry.timestamp)) →
      fetchWeather dateString cacheKey m cache (.ok days) =
        fetchUpstream dateString cacheKey m cache (.ok days) := by
    intro m hm
    rcases hm with hm | ⟨entry, he, hstale⟩
    · simp [fetchWeather, hm]
    · have : ¬(m - entry.timestamp < FRESH_MS) := not_lt.mpr hstale
      simp [fetchWeather, he, this]
  refine ⟨?_, ?_, ?_⟩
  · intro entry he hfresh
    simp [fetchWeather, he, hfresh]
  · intro hm day hday hne
    rw [hmissStale now hm, hgo now day hday hne]
    exact ⟨rfl, cacheLookup_cacheSet_self cache cacheKey _⟩
  · intro hm day hday hne
    have h1 : fetchWeather dateString cacheKey t1 cache (.ok days) =
        ⟨.ok (reduceHourly day.hourly),
          cacheSet cache cacheKey ⟨reduceHourly day.hourly, t1⟩, true⟩ := by
      rw [hmissStale t1 (Or.inl hm), hgo t1 day hday hne]
    refine ⟨by rw [h1], ?_, ?_⟩
    · intro hwin
      rw [h1]
      simp only [fetchWeather, cacheLookup_cacheSet_self cache cacheKey _]
      rw [if_pos]
      exact hwin
    · intro hstale
      rw [h1]
      simp only [fetchWeather, cacheLookup_cacheSet_self cache cacheKey _]
      rw [if_neg (not_lt.mpr hstale)]
      exact fetchUpstream_fetched dateString cacheKey t2 _ up2

/-- C8: when the cache holds no fresh entry for the key and the upstream
fetch fails — rejected fetch, non-success response, empty weather array,
or empty hourly series for the selected day — fetchWeather surfaces an
error to the caller and hands back the cache exactly as it was: no entry
added, removed or updated. -/
theorem fetch_failure_leaves_cache (dateString cacheKey : String) (now : Int)
    (cache : Cache) (up : Upstream)
    (hmiss : cacheLookup cache cacheKey = none ∨
      ∃ entry, cacheLookup cache cacheKey = some entry ∧
        FRESH_MS ≤ now - entry.timestamp)
    (hfail : upstreamFails dateString up = true) :
    ∃ e, fetchWeather dateString cacheKey now cache up = ⟨.error e, cache, true⟩ := by
  have hup : ∃ e, fetchUpstream dateString cacheKey now cache up =
      ⟨.error e, cache, true⟩ := by
    cases up with
    | failNetwork => exact ⟨.network, rfl⟩
    | failStatus => exact ⟨.badStatus, rfl⟩
    | ok days =>
      simp only [upstreamFails] at hfail
      cases h : selectDay dateString days with
      | none => exact ⟨.noData, by simp [fetchUpstream, h]⟩
      | some day =>
        rw [h] at hfail
        have hfe : day.hourly.isEmpty = true := by simpa using hfail
        exact ⟨.noHourly, by simp [fetchUpstream, h, hfe]⟩
  rcases hmiss with hm | ⟨entry, he, hstale⟩
  · simpa [fetchWeather, hm] using hup
  · have hnl : ¬(now - entry.timestamp < FRESH_MS) := not_lt.mpr hstale
    simpa [fetchWeather, he, hnl] using hup

/-- An hourly sample with a given temperature and all other numeric series
zero, used to exercise the reduction on concrete input. -/
def sampleHour (t : ℚ) : HourEntry :=
  { tempC := t, humidity := 0, windspeedKmph := 0, precipMM := 0,
    weatherDesc := "Sunny", weatherCode := 113 }

/-- A concrete newValues carrying only a temperature, as sent by a client
that edited one field. -/
def nvT : NewValues :=
  { tempC := some 28, humidityPct := none, windKph := none, precipMm := none,
    conditionText := none, conditionIcon := none }

/-- A concrete active override record for the Hyderabad default location. -/
def recA : OverrideRecord :=
  { lat := "17.385", lon := "78.4867", date := "2024-01-01", newValues := nvT,
    updatedAt := "2024-01-01T00:00:00Z", updatedBy := "anonymous",
    version := 2, active := true }

/-- A second active record for the same key with a lower version, as a
corrupted store could contain. -/
def recB : OverrideRecord := { recA with version := 1 }

/-- An inactive record for the key. -/
def recC : OverrideRecord := { recA with active := false }

/-- A concrete baseline snapshot. -/
def snapEx : WeatherSnapshot :=
  { tempC := 22, humidityPct := 40, windKph := 10, precipMm := 0,
    conditionText := "Sunny", conditionIcon := "☀️", source := "api" }

/-- A concrete upstream day for the requested date. -/
def dayEx : WeatherDay :=
  { date := "2024-01-01", hourly := [sampleHour 1, sampleHour 1, sampleHour 2] }

theorem create_supersedes_and_single_active_witness :
    ((createN "17.385" "78.4867" "2024-01-01" (fun _ => nvT) (fun _ => "t") 3).filter
      (fun o => o.active && keyMatch "17.385" "78.4867" "2024-01-01" o)).length = 1 :=
  (create_supersedes_and_single_active "17.385" "78.4867" "2024-01-01" nvT "t" []
    (fun _ => nvT) (fun _ => "t") 2).2.2.2.2.2.2.1

theorem version_assignment_witness :
    (addOverride "17.385" "78.4867" "2024-01-01" nvT "t2"
      (removeOverride "17.385" "78.4867" "2024-01-01"
        (addOverride "17.385" "78.4867" "2024-01-01" nvT "t1" []).2).2).1.version = 2 :=
  (version_assignment "17.385" "78.4867" "2024-01-01" nvT nvT nvT "t" "t1" "t2"
    []).2.2.2

theorem getLatestOverride_spec_witness :
    recA ∈ [recB, recA] ∧ recB.version ≤ recA.version :=
  ⟨((getLatestOverride_spec "17.385" "78.4867" "2024-01-01" [recB, recA]).2 recA
      (by decide)).1,
   ((getLatestOverride_spec "17.385" "78.4867" "2024-01-01" [recB, recA]).2 recA
      (by decide)).2.2.2 recB (by decide) (by decide) (by decide)⟩

theorem remove_deactivates_witness :
    (removeOverride "17.385" "78.4867" "2024-01-01" [recC]).1 = none ∧
    (removeOverride "17.385" "78.4867" "2024-01-01" [recC]).2 = [recC] ∧
    (removeOverride "17.385" "78.4867" "2024-01-01" [recA]).1.isSome = true :=
  ⟨((remove_deactivates "17.385" "78.4867" "2024-01-01" [recC]).2.2.2.2.1
      (by decide)).1,
   ((remove_deactivates "17.385" "78.4867" "2024-01-01" [recC]).2.2.2.2.1
      (by decide)).2,
   (remove_deactivates "17.385" "78.4867" "2024-01-01" [recA]).2.2.2.2.2 recA
      (by decide) (by decide) (by decide)⟩

theorem merge_spec_witness :
    (displayWeather snapEx (some recA)).1.tempC = 28 :=
  (merge_spec snapEx recA).2.2.1 28 rfl

theorem cache_freshness_witness :
    fetchWeather "2024-01-01" "17.385,78.4867,2024-01-01" 60000
        (fetchWeather "2024-01-01" "17.385,78.4867,2024-01-01" 0 []
          (.ok [dayEx])).cache (.ok [dayEx]) =
      ⟨.ok (reduceHourly dayEx.hourly),
        (fetchWeather "2024-01-01" "17.385,78.4867,2024-01-01" 0 []
          (.ok [dayEx])).cache, false⟩ :=
  ((cache_freshness "2024-01-01" "17.385,78.4867,2024-01-01" 0 0 60000 []
      (.ok [dayEx]) (.ok [dayEx]) [dayEx]).2.2 rfl dayEx (by decide)
      (by decide)).2.1 (by decide)

theorem fetch_failure_leaves_cache_witness :
    (fetchWeather "2024-01-01" "17.385,78.4867,2024-01-01" 0 [] .failNetwork).cache
      = [] ∧
    (fetchWeather "2024-01-01" "17.385,78.4867,2024-01-01" 0 [] .failNetwork).fetched
      = true := by
  obtain ⟨e, he⟩ := fetch_failure_leaves_cache "2024-01-01"
    "17.385,78.4867,2024-01-01" 0 [] .failNetwork (Or.inl rfl) rfl
  rw [he]
  exact ⟨rfl, rfl⟩

theorem resilient_read_witness :
    readOverrides .absent = [] ∧
    getLatestOverrideFile "17.385" "78.4867" "2024-01-01" OverridesFile.absent =
      getLatestOverrideFile "17.385" "78.4867" "2024-01-01" (.parsed []) :=
  ⟨(resilient_read "17.385" "78.4867" "2024-01-01" nvT "t" .absent (Or.inl rfl)).1,
   (resilient_read "17.385" "78.4867" "2024-01-01" nvT "t" .absent (Or.inl rfl)).2.1⟩

theorem http_key_coercion_witness :
    (addOverride "17.385" "78.4867" "2024-01-01" nvT "t" []).1.lat = "17.385" ∧
    handleGet (some "17.385") (some "78.4867") (some "2024-01-01")
        (addOverride "17.385" "78.4867" "2024-01-01" nvT "t" []).2 =
      .ok (some (addOverride "17.385" "78.4867" "2024-01-01" nvT "t" []).1) := by
  have hf : ∀ q : ℚ, (fun _ : ℚ => "17.385") q ≠ "" := by
    intro q
    show "17.385" ≠ ""
    decide
  obtain ⟨r, log2, hpost, hla, _, _, _, hgh, _⟩ :=
    http_key_coercion (fun _ => "17.385") (.jnum 17) (.jstr "78.4867")
      (.jstr "2024-01-01") nvT "t" [] (by decide) (by decide) (by decide) hf
  have h0 : handlePost (fun _ => "17.385") (.jnum 17) (.jstr "78.4867")
      (.jstr "2024-01-01") (some nvT) "t" [] =
      Except.ok (addOverride "17.385" "78.4867" "2024-01-01" nvT "t" []) := by
    simp [handlePost, jsTruthy, jsToString]
  rw [h0] at hpost
  injection hpost with hpair
  have hr : r = (addOverride "17.385" "78.4867" "2024-01-01" nvT "t" []).1 :=
    (congrArg Prod.fst hpair).symm
  have hl : log2 = (addOverride "17.385" "78.4867" "2024-01-01" nvT "t" []).2 :=
    (congrArg Prod.snd hpair).symm
  subst hr
  subst hl
  exact ⟨hla, hgh⟩
